import Mathlib

/-!
Verification of the Sudoku game engine (`src/main.js`).

The grid is embedded as a function `ℕ → ℕ → ℕ` (only indices `0..8` are
meaningful; `0` denotes an empty cell).  The JavaScript functions
`isValid`, `solve`, `generateValidSudoku`, `generatePuzzle`,
`isPuzzleComplete`, `eraseCell`, `enterNumber`, `giveHint` and
`resetProgress` are translated one-for-one.  `Math.random()` is modelled
by an oracle `rand : ℕ → ℕ` (each draw `Math.floor(Math.random()*k)` is
`rand t % k`), and the unbounded `while`/recursion of the source is
modelled with an explicit fuel argument; theorems show the fuel bound is
never the reason for a result.
-/

namespace Sudoku

/-- A 9×9 Sudoku grid: `g r c` is the value at row `r`, column `c`
(`0` = empty, `1..9` = digits).  Indices outside `0..8` are irrelevant. -/
abbrev Grid := ℕ → ℕ → ℕ

/-- The in-place assignment `board[r][c] = v` of the source. -/
def update (g : Grid) (r c v : ℕ) : Grid :=
  fun a b => if a = r ∧ b = c then v else g a b

/-- `Array(9).fill(null).map(() => Array(9).fill(0))`: the all-zero grid. -/
def zeroGrid : Grid := fun _ _ => 0

/-- Build a grid from a row-major list of rows (missing entries are 0). -/
def gridOfLists (l : List (List ℕ)) : Grid :=
  fun r c => (l.getD r []).getD c 0

/-- `isValid(row, col, num)` from `generateValidSudoku` (src/main.js
lines 255-276): scans the whole row, the whole column and the whole
3×3 box — including the target cell `(row, col)` itself — and returns
`false` iff `num` is found. -/
def isValid (g : Grid) (row col num : ℕ) : Bool :=
  ((List.range 9).all fun i => g row i != num) &&
  ((List.range 9).all fun i => g i col != num) &&
  ((List.range 3).all fun i => (List.range 3).all fun j =>
    g (row / 3 * 3 + i) (col / 3 * 3 + j) != num)

/-- The destructuring swap `[nums[i], nums[j]] = [nums[j], nums[i]]`. -/
def listSwap (xs : List ℕ) (i j : ℕ) : List ℕ :=
  (xs.set i (xs.getD j 0)).set j (xs.getD i 0)

/-- The Fisher–Yates loop of `solve` (lines 283-286): for `i` from the
first argument down to `1`, swap index `i` with index
`Math.floor(Math.random()*(i+1))`, modelled as `rand t % (i+1)`. -/
def fyLoop (rand : ℕ → ℕ) : ℕ → List ℕ → ℕ → List ℕ × ℕ
  | 0, xs, t => (xs, t)
  | i + 1, xs, t => fyLoop rand i (listSwap xs (i + 1) (rand t % (i + 2))) (t + 1)

/-- `nums = [1,…,9]` shuffled by the Fisher–Yates loop; also returns the
index of the next unused random draw. -/
def shuffle (rand : ℕ → ℕ) (t : ℕ) : List ℕ × ℕ :=
  fyLoop rand 8 [1, 2, 3, 4, 5, 6, 7, 8, 9] t

/-- The row-major scan of `solve` for the first cell with value 0
(the nested `for` loops of lines 279-281, cell `k` = row `k / 9`,
column `k % 9`). -/
def firstEmpty (g : Grid) : Option (ℕ × ℕ) :=
  ((List.range 81).find? fun k => g (k / 9) (k % 9) == 0).map
    fun k => (k / 9, k % 9)

/-- The candidate loop `for (num of nums)` of `solve` (lines 288-294):
place a legal candidate, recurse (`solveF`), and on failure undo the
placement (`board[row][col] = 0`) and try the next candidate.  The
grid threaded through is the shared mutable `board` of the source. -/
def tryNums (solveF : Grid → ℕ → Bool × Grid × ℕ) (r c : ℕ) :
    Grid → List ℕ → ℕ → Bool × Grid × ℕ
  | g, [], _t => (false, g, _t)
  | g, n :: ns, t =>
    if isValid g r c n then
      match solveF (update g r c n) t with
      | (true, g1, t1) => (true, g1, t1)
      | (false, g1, t1) => tryNums solveF r c (update g1 r c 0) ns t1
    else tryNums solveF r c g ns t

/-- `solve()` (lines 278-300): find the first empty cell; if none,
return `true`; otherwise shuffle `[1,…,9]` and run the candidate loop.
The source recursion is bounded by the number of empty cells, so an
explicit `fuel` models the call depth (results below show any
`fuel > emptyCount` behaves like the unbounded source). -/
def solve (rand : ℕ → ℕ) : ℕ → Grid → ℕ → Bool × Grid × ℕ
  | 0, g, t => (false, g, t)
  | fuel + 1, g, t =>
    match firstEmpty g with
    | none => (true, g, t)
    | some (r, c) =>
      let p := shuffle rand t
      tryNums (solve rand fuel) r c g p.1 p.2

/-- `generateValidSudoku()` (lines 252-304): start from the all-zero
grid, run `solve()`, and return the board (the boolean result is
ignored by the source).  Fuel 82 exceeds the maximal recursion depth
81 + 1. -/
def generateValidSudoku (rand : ℕ → ℕ) : Grid :=
  (solve rand 82 zeroGrid 0).2.1

/-- The removal loop of `generatePuzzle` (lines 238-246):
`while (removed < 81 - clueCount)` pick a random cell (two draws,
`row = rand t % 9`, `col = rand (t+1) % 9`); zero it if non-zero.
`none` models non-termination within the given fuel. -/
def removeLoop (stream : ℕ → ℕ) (target : ℤ) :
    ℕ → Grid → ℕ → ℕ → Option Grid
  | 0, g, removed, _t => if (removed : ℤ) < target then none else some g
  | fuel + 1, g, removed, t =>
    if (removed : ℤ) < target then
      let row := stream t % 9
      let col := stream (t + 1) % 9
      if g row col ≠ 0 then
        removeLoop stream target fuel (update g row col 0) (removed + 1) (t + 2)
      else
        removeLoop stream target fuel g removed (t + 2)
    else some g

/-- The puzzle-derivation part of `generatePuzzle` (lines 228-250):
copy the solution and remove cells until `removed = 81 - clueCount`.
`clueCount` is an integer (the source imposes no range check). -/
def derivePuzzle (stream : ℕ → ℕ) (sol : Grid) (clueCount : ℤ)
    (fuel t : ℕ) : Option Grid :=
  removeLoop stream (81 - clueCount) fuel sol 0 t

/-- A deterministic pick sequence that enumerates the 81 cells in
row-major order (pick `i` is row `i / 9`, column `i % 9`); used to
instantiate the random stream. -/
def sweepStream : ℕ → ℕ :=
  fun t => if t % 2 = 0 then t / 2 % 81 / 9 else t / 2 % 81 % 9

/-- Two cells are in a common constraint group: same row, same column,
or same 3×3 box. -/
def sameGroup (r c r1 c1 : ℕ) : Prop :=
  r1 = r ∨ c1 = c ∨ (r1 / 3 = r / 3 ∧ c1 / 3 = c / 3)

/-- `v` occurs somewhere in the row, column or box of `(r, c)` —
possibly at `(r, c)` itself. -/
def occursAnywhere (g : Grid) (r c v : ℕ) : Prop :=
  ∃ r1, r1 < 9 ∧ ∃ c1, c1 < 9 ∧ sameGroup r c r1 c1 ∧ g r1 c1 = v

/-- `v` occurs in the row, column or box of `(r, c)`, at a cell other
than `(r, c)` itself. -/
def occursElsewhere (g : Grid) (r c v : ℕ) : Prop :=
  ∃ r1, r1 < 9 ∧ ∃ c1, c1 < 9 ∧ (r1 ≠ r ∨ c1 ≠ c) ∧
    sameGroup r c r1 c1 ∧ g r1 c1 = v

/-- No placed value is repeated in any row, column or box. -/
def noConflict (g : Grid) : Prop :=
  ∀ r, r < 9 → ∀ c, c < 9 → ∀ r1, r1 < 9 → ∀ c1, c1 < 9 →
    (r ≠ r1 ∨ c ≠ c1) → sameGroup r c r1 c1 → g r c ≠ 0 → g r c ≠ g r1 c1

/-- All 81 cells hold values at most 9. -/
def boundedGrid (g : Grid) : Prop :=
  ∀ r, r < 9 → ∀ c, c < 9 → g r c ≤ 9

/-- All 81 cells are non-empty. -/
def filledGrid (g : Grid) : Prop :=
  ∀ r, r < 9 → ∀ c, c < 9 → g r c ≠ 0

/-- `gs` is a fully populated conflict-free grid extending `g`. -/
def goodExt (gs g : Grid) : Prop :=
  (∀ r, r < 9 → ∀ c, c < 9 → g r c ≠ 0 → gs r c = g r c) ∧
  (∀ r, r < 9 → ∀ c, c < 9 → 1 ≤ gs r c ∧ gs r c ≤ 9) ∧
  noConflict gs

instance (r c r1 c1 : ℕ) : Decidable (sameGroup r c r1 c1) := by
  unfold sameGroup; infer_instance

instance (g : Grid) (r c v : ℕ) : Decidable (occursAnywhere g r c v) := by
  unfold occursAnywhere; infer_instance

instance (g : Grid) (r c v : ℕ) : Decidable (occursElsewhere g r c v) := by
  unfold occursElsewhere; infer_instance

instance (g : Grid) : Decidable (noConflict g) := by
  unfold noConflict
  exact @Nat.decidableBallLT 9 _ fun r _ => @Nat.decidableBallLT 9 _ fun c _ =>
    @Nat.decidableBallLT 9 _ fun r1 _ => @Nat.decidableBallLT 9 _ fun c1 _ =>
      inferInstance

instance (g : Grid) : Decidable (boundedGrid g) := by
  unfold boundedGrid; infer_instance

instance (g : Grid) : Decidable (filledGrid g) := by
  unfold filledGrid; infer_instance

instance (gs g : Grid) : Decidable (goodExt gs g) := by
  unfold goodExt; infer_instance

/-- Number of empty cells among the 81 positions. -/
def emptyCount (g : Grid) : ℕ :=
  (Finset.univ.filter fun p : Fin 9 × Fin 9 => g p.1 p.2 = 0).card

/-- Number of non-empty cells among the 81 positions (the clue count). -/
def nonZeroCount (g : Grid) : ℕ :=
  (Finset.univ.filter fun p : Fin 9 × Fin 9 => g p.1 p.2 ≠ 0).card

/-- The nine values of row `r`. -/
def rowList (g : Grid) (r : ℕ) : List ℕ :=
  (List.range 9).map fun c => g r c

/-- The nine values of column `c`. -/
def colList (g : Grid) (c : ℕ) : List ℕ :=
  (List.range 9).map fun r => g r c

/-- The nine values of box `b` (boxes numbered 0..8 row-major). -/
def boxList (g : Grid) (b : ℕ) : List ℕ :=
  (List.range 9).map fun k => g (b / 3 * 3 + k / 3) (b % 3 * 3 + k % 3)

/-- The grid-and-session fragment of the source's `gameState` object:
the three grids plus the mistake and score counters.  Purely visual
state (selected cell, timer, notes, error highlights, tooltips, hint
quota) does not interact with the grids and is omitted. -/
structure GameState where
  board : Grid
  solution : Grid
  originalBoard : Grid
  mistakes : ℕ
  score : ℕ

/-- The state produced by `generatePuzzle` (lines 228-250): the board
is the derived puzzle and `originalBoard` is its deep copy
(`gameState.board.map(row => [...row])`). -/
def mkGameState (sol puzzle : Grid) : GameState :=
  { board := puzzle, solution := sol, originalBoard := puzzle,
    mistakes := 0, score := 0 }

/-- `check(value, row, col)` of the Move Validator: the comparison
`parseInt(number) !== gameState.solution[row][col]` of `enterNumber`
(line 440), as a positive test. -/
def moveIsCorrect (sol : Grid) (row col value : ℕ) : Bool :=
  value == sol row col

/-- The state effect of `enterNumber(cell, number)` outside notes mode
(lines 429-460): write the value, then either count a mistake or add
10 points.  (The game-over branch at more than 3 mistakes starts a new
game, i.e. a fresh derivation replacing the whole state.) -/
def enterNumber (s : GameState) (row col value : ℕ) : GameState :=
  if value ≠ s.solution row col then
    { s with board := update s.board row col value, mistakes := s.mistakes + 1 }
  else
    { s with board := update s.board row col value, score := s.score + 10 }

/-- `eraseCell(cell)` (lines 512-523): clear the cell unless it looks
like a given, where "given" is decided by `solution[r][c] !== board[r][c]`. -/
def eraseCell (s : GameState) (row col : ℕ) : GameState :=
  if s.solution row col ≠ s.board row col then
    { s with board := update s.board row col 0 }
  else s

/-- The board effect of `giveHint()` (lines 598-636) once the random
empty cell `(row, col)` has been chosen: fill it from the solution and
add 5 points.  A non-empty cell is never chosen (`emptyCells` only
collects cells with value 0). -/
def giveHint (s : GameState) (row col : ℕ) : GameState :=
  if s.board row col = 0 then
    { s with board := update s.board row col (s.solution row col),
             score := s.score + 5 }
  else s

/-- `resetProgress()` (lines 531-555): restore the board from the
original-puzzle snapshot and clear the counters. -/
def resetProgress (s : GameState) : GameState :=
  { s with board := s.originalBoard, mistakes := 0, score := 0 }

/-- `isPuzzleComplete()` (lines 472-481): true iff every of the 81
cells of the board equals the solution. -/
def isPuzzleComplete (board sol : Grid) : Bool :=
  (List.range 9).all fun row => (List.range 9).all fun col =>
    board row col == sol row col

/-- A player action on the current puzzle, as dispatched by the UI
layer: entering a digit, erasing a cell, taking a hint (with the
randomly chosen cell made explicit), or resetting progress. -/
inductive Move where
  | enter (row col value : ℕ)
  | erase (row col : ℕ)
  | hint (row col : ℕ)
  | reset

/-- Interpret one player action on the game state. -/
def applyMove (s : GameState) : Move → GameState
  | .enter row col value => enterNumber s row col value
  | .erase row col => eraseCell s row col
  | .hint row col => giveHint s row col
  | .reset => resetProgress s

/-- Interpret a sequence of player actions. -/
def applyMoves (s : GameState) (ms : List Move) : GameState :=
  ms.foldl applyMove s

/-- A concrete fully populated conflict-free grid (each row, column and
box is a permutation of 1..9); used as a witness input. -/
def solGrid : Grid := gridOfLists
  [[1, 2, 3, 4, 5, 6, 7, 8, 9],
   [4, 5, 6, 7, 8, 9, 1, 2, 3],
   [7, 8, 9, 1, 2, 3, 4, 5, 6],
   [2, 3, 1, 5, 6, 4, 8, 9, 7],
   [5, 6, 4, 8, 9, 7, 2, 3, 1],
   [8, 9, 7, 2, 3, 1, 5, 6, 4],
   [3, 1, 2, 6, 4, 5, 9, 7, 8],
   [6, 4, 5, 9, 7, 8, 3, 1, 2],
   [9, 7, 8, 3, 1, 2, 6, 4, 5]]

/-- A partially filled grid that is unsatisfiable: the first empty cell
`(0, 8)` already conflicts with every digit (1..8 are in row 0 and 9 is
in column 8). -/
def gBad : Grid := gridOfLists
  [[1, 2, 3, 4, 5, 6, 7, 8, 0],
   [0, 0, 0, 0, 0, 0, 0, 0, 9]]

/-- The spec's example grid: row 0 is `[5,3,0,0,7,0,0,0,0]`. -/
def gExample : Grid := gridOfLists [[5, 3, 0, 0, 7, 0, 0, 0, 0]]

/-- A grid holding a single 5 at the target cell `(0, 0)` itself. -/
def gSelf : Grid := update zeroGrid 0 0 5

/-- A game state where the player has correctly entered 5 at `(0, 0)`:
the cell is empty in the original puzzle but matches the solution. -/
def sEntered : GameState :=
  { board := gridOfLists [[5]], solution := gridOfLists [[5, 3]],
    originalBoard := zeroGrid, mistakes := 0, score := 10 }

end Sudoku

namespace Sudoku

lemma update_at (g : Grid) (r c v : ℕ) : update g r c v r c = v := by
  simp [update]

lemma update_ne (g : Grid) (r c v : ℕ) {a b : ℕ} (h : ¬(a = r ∧ b = c)) :
    update g r c v a b = g a b := by
  simp [update, h]

lemma update_cancel {g : Grid} {r c : ℕ} (h0 : g r c = 0) (n : ℕ) :
    update (update g r c n) r c 0 = g := by
  funext a b
  by_cases h : a = r ∧ b = c
  · obtain ⟨h1, h2⟩ := h
    subst h1; subst h2
    simp [update, h0]
  · simp [update, h]

lemma sameGroup_symm {r c r1 c1 : ℕ} (h : sameGroup r c r1 c1) :
    sameGroup r1 c1 r c := by
  rcases h with h | h | ⟨h1, h2⟩
  · exact Or.inl h.symm
  · exact Or.inr (Or.inl h.symm)
  · exact Or.inr (Or.inr ⟨h1.symm, h2.symm⟩)

lemma isValid_eq_true_iff (g : Grid) (r c v : ℕ) (hr : r < 9) (hc : c < 9) :
    isValid g r c v = true ↔
      ∀ r1, r1 < 9 → ∀ c1, c1 < 9 → sameGroup r c r1 c1 → g r1 c1 ≠ v := by
  unfold isValid
  simp only [Bool.and_eq_true, List.all_eq_true, List.mem_range, bne_iff_ne]
  constructor
  · rintro ⟨⟨hrow, hcol⟩, hbox⟩ r1 h1 c1 h2 hsg
    rcases hsg with h | h | ⟨hbr, hbc⟩
    · subst h; exact hrow c1 h2
    · subst h; exact hcol r1 h1
    · have h3 : r1 - r / 3 * 3 < 3 := by omega
      have h4 : c1 - c / 3 * 3 < 3 := by omega
      have := hbox (r1 - r / 3 * 3) h3 (c1 - c / 3 * 3) h4
      have e1 : r / 3 * 3 + (r1 - r / 3 * 3) = r1 := by omega
      have e2 : c / 3 * 3 + (c1 - c / 3 * 3) = c1 := by omega
      rwa [e1, e2] at this
  · intro h
    refine ⟨⟨fun i hi => ?_, fun i hi => ?_⟩, fun i hi j hj => ?_⟩
    · exact h r hr i hi (Or.inl rfl)
    · exact h i hi c hc (Or.inr (Or.inl rfl))
    · exact h (r / 3 * 3 + i) (by omega) (c / 3 * 3 + j) (by omega)
        (Or.inr (Or.inr ⟨by omega, by omega⟩))

lemma isValid_eq_false_iff (g : Grid) (r c v : ℕ) (hr : r < 9) (hc : c < 9) :
    isValid g r c v = false ↔ occursAnywhere g r c v := by
  rw [← Bool.not_eq_true, isValid_eq_true_iff g r c v hr hc]
  unfold occursAnywhere
  push_neg
  constructor
  · rintro ⟨r1, h1, c1, h2, hsg, he⟩
    exact ⟨r1, h1, c1, h2, hsg, he⟩
  · rintro ⟨r1, h1, c1, h2, hsg, he⟩
    exact ⟨r1, h1, c1, h2, hsg, he⟩

lemma occursAnywhere_iff_elsewhere {g : Grid} {r c v : ℕ}
    (h0 : g r c = 0) (hv : v ≠ 0) :
    occursAnywhere g r c v ↔ occursElsewhere g r c v := by
  unfold occursAnywhere occursElsewhere
  constructor
  · rintro ⟨r1, h1, c1, h2, hsg, he⟩
    refine ⟨r1, h1, c1, h2, ?_, hsg, he⟩
    by_contra hne
    push_neg at hne
    obtain ⟨e1, e2⟩ := hne
    subst e1; subst e2
    rw [h0] at he
    exact hv he.symm
  · rintro ⟨r1, h1, c1, h2, _, hsg, he⟩
    exact ⟨r1, h1, c1, h2, hsg, he⟩

lemma firstEmpty_none {g : Grid} (h : firstEmpty g = none) : filledGrid g := by
  unfold firstEmpty at h
  rw [Option.map_eq_none', List.find?_eq_none] at h
  intro r hr c hc
  have hk := h (9 * r + c) (by rw [List.mem_range]; omega)
  simp only [beq_iff_eq] at hk
  have e1 : (9 * r + c) / 9 = r := by omega
  have e2 : (9 * r + c) % 9 = c := by omega
  rw [e1, e2] at hk
  exact hk

lemma firstEmpty_some {g : Grid} {r c : ℕ} (h : firstEmpty g = some (r, c)) :
    r < 9 ∧ c < 9 ∧ g r c = 0 := by
  unfold firstEmpty at h
  rw [Option.map_eq_some'] at h
  obtain ⟨k, hk, hf⟩ := h
  have hmem := List.mem_of_find?_eq_some hk
  rw [List.mem_range] at hmem
  have hp := List.find?_some hk
  simp only [beq_iff_eq] at hp
  cases hf
  exact ⟨by omega, by omega, hp⟩

end Sudoku

namespace Sudoku

lemma mem_listSwap {xs : List ℕ} {i j : ℕ} (hi : i < xs.length)
    (hj : j < xs.length) (a : ℕ) : a ∈ listSwap xs i j ↔ a ∈ xs := by
  constructor
  · intro h
    rcases List.mem_or_eq_of_mem_set h with h1 | h1
    · rcases List.mem_or_eq_of_mem_set h1 with h2 | h2
      · exact h2
      · subst h2
        rw [List.getD_eq_getElem?_getD, List.getElem?_eq_getElem hj]
        simpa using List.getElem_mem hj
    · subst h1
      rw [List.getD_eq_getElem?_getD, List.getElem?_eq_getElem hi]
      simpa using List.getElem_mem hi
  · intro h
    rw [List.mem_iff_getElem?] at h
    obtain ⟨k, hk⟩ := h
    have hklen : k < xs.length := by
      by_contra hx
      rw [List.getElem?_eq_none (by omega)] at hk
      cases hk
    unfold listSwap
    rw [List.mem_iff_getElem?]
    by_cases hij : i = j
    · subst hij
      by_cases hki : k = i
      · subst hki
        refine ⟨k, ?_⟩
        rw [List.getElem?_set_self (by simpa using hi)]
        rw [List.getD_eq_getElem?_getD, hk]
        rfl
      · refine ⟨k, ?_⟩
        rw [List.getElem?_set_ne (by omega), List.getElem?_set_ne (by omega)]
        exact hk
    · by_cases hki : k = i
      · subst hki
        refine ⟨j, ?_⟩
        rw [List.getElem?_set_self (by simpa using hj)]
        rw [List.getD_eq_getElem?_getD, hk]
        rfl
      · by_cases hkj : k = j
        · subst hkj
          refine ⟨i, ?_⟩
          rw [List.getElem?_set_ne (by omega), List.getElem?_set_self hi]
          rw [List.getD_eq_getElem?_getD, hk]
          rfl
        · refine ⟨k, ?_⟩
          rw [List.getElem?_set_ne (by omega), List.getElem?_set_ne (by omega)]
          exact hk

lemma fyLoop_length (rand : ℕ → ℕ) :
    ∀ (i : ℕ) (xs : List ℕ) (t : ℕ),
      ((fyLoop rand i xs t).1).length = xs.length := by
  intro i
  induction i with
  | zero => intro xs t; rfl
  | succ i ih =>
    intro xs t
    rw [fyLoop, ih]
    simp [listSwap]

lemma mem_fyLoop (rand : ℕ → ℕ) (a : ℕ) :
    ∀ (i : ℕ) (xs : List ℕ) (t : ℕ), i < xs.length →
      (a ∈ (fyLoop rand i xs t).1 ↔ a ∈ xs) := by
  intro i
  induction i with
  | zero => intro xs t _; exact Iff.rfl
  | succ i ih =>
    intro xs t h
    rw [fyLoop, ih _ _ (by simp [listSwap]; omega)]
    exact mem_listSwap h
      (lt_of_lt_of_le (Nat.mod_lt _ (by omega)) (by omega)) a

lemma mem_shuffle (rand : ℕ → ℕ) (t : ℕ) (a : ℕ) :
    a ∈ (shuffle rand t).1 ↔ (1 ≤ a ∧ a ≤ 9) := by
  unfold shuffle
  rw [mem_fyLoop rand a 8 _ t (by simp)]
  simp only [List.mem_cons, List.not_mem_nil, or_false]
  omega

lemma tryNums_restore (solveF : Grid → ℕ → Bool × Grid × ℕ)
    (hF : ∀ g t, (solveF g t).1 = false → (solveF g t).2.1 = g)
    (r c : ℕ) :
    ∀ (ns : List ℕ) (g : Grid) (t : ℕ), g r c = 0 →
      (tryNums solveF r c g ns t).1 = false →
      (tryNums solveF r c g ns t).2.1 = g := by
  intro ns
  induction ns with
  | nil => intro g t _ _; rfl
  | cons n ns ih =>
    intro g t h0 hfail
    by_cases hv : isValid g r c n = true
    · rcases hs : solveF (update g r c n) t with ⟨b, g1, t1⟩
      cases b
      · have hg1 : g1 = update g r c n := by
          have := hF (update g r c n) t
          rw [hs] at this
          exact this rfl
        have hback : update g1 r c 0 = g := by
          rw [hg1]
          exact update_cancel h0 n
        simp only [tryNums, hv, if_true, hs] at hfail ⊢
        rw [hback] at hfail ⊢
        exact ih g t1 h0 hfail
      · simp only [tryNums, hv, if_true, hs] at hfail
        exact Bool.noConfusion hfail
    · simp only [tryNums, if_neg hv] at hfail ⊢
      exact ih g t h0 hfail

lemma solve_restore (rand : ℕ → ℕ) :
    ∀ (fuel : ℕ) (g : Grid) (t : ℕ), (solve rand fuel g t).1 = false →
      (solve rand fuel g t).2.1 = g := by
  intro fuel
  induction fuel with
  | zero => intro g t _; rfl
  | succ fuel ih =>
    intro g t hfail
    rcases hfe : firstEmpty g with _ | ⟨r, c⟩
    · simp only [solve, hfe] at hfail
      exact Bool.noConfusion hfail
    · have h0 := (firstEmpty_some hfe).2.2
      simp only [solve, hfe] at hfail ⊢
      exact tryNums_restore (solve rand fuel) ih r c _ g _ h0 hfail

end Sudoku

namespace Sudoku

lemma emptyCount_pos {g : Grid} {r c : ℕ} (hr : r < 9) (hc : c < 9)
    (h0 : g r c = 0) : 0 < emptyCount g := by
  unfold emptyCount
  apply Finset.card_pos.mpr
  refine ⟨⟨⟨r, hr⟩, ⟨c, hc⟩⟩, ?_⟩
  simp [h0]

lemma emptyCount_update {g : Grid} {r c v : ℕ} (hr : r < 9) (hc : c < 9)
    (h0 : g r c = 0) (hv : v ≠ 0) :
    emptyCount (update g r c v) + 1 = emptyCount g := by
  have hmem : (⟨⟨r, hr⟩, ⟨c, hc⟩⟩ : Fin 9 × Fin 9) ∈
      Finset.univ.filter fun p : Fin 9 × Fin 9 => g p.1 p.2 = 0 := by
    simp [h0]
  have hset : (Finset.univ.filter fun p : Fin 9 × Fin 9 => update g r c v p.1 p.2 = 0)
      = (Finset.univ.filter fun p : Fin 9 × Fin 9 => g p.1 p.2 = 0).erase
          ⟨⟨r, hr⟩, ⟨c, hc⟩⟩ := by
    ext p
    simp only [Finset.mem_filter, Finset.mem_erase, Finset.mem_univ, true_and]
    constructor
    · intro hp
      by_cases hpe : (p.1 : ℕ) = r ∧ (p.2 : ℕ) = c
      · exfalso
        simp only [update] at hp
        rw [if_pos hpe] at hp
        exact hv hp
      · refine ⟨?_, ?_⟩
        · intro he
          apply hpe
          subst he
          exact ⟨rfl, rfl⟩
        · simp only [update] at hp
          rw [if_neg hpe] at hp
          exact hp
    · rintro ⟨hne, hp⟩
      have hpe : ¬((p.1 : ℕ) = r ∧ (p.2 : ℕ) = c) := by
        rintro ⟨h1, h2⟩
        exact hne (Prod.ext (Fin.ext h1) (Fin.ext h2))
      simp only [update]
      rw [if_neg hpe]
      exact hp
  unfold emptyCount
  rw [hset, Finset.card_erase_of_mem hmem]
  have hpos : 0 < (Finset.univ.filter fun p : Fin 9 × Fin 9 => g p.1 p.2 = 0).card :=
    Finset.card_pos.mpr ⟨_, hmem⟩
  omega

lemma nonZeroCount_update {g : Grid} {r c : ℕ} (hr : r < 9) (hc : c < 9)
    (h1 : g r c ≠ 0) :
    nonZeroCount (update g r c 0) + 1 = nonZeroCount g := by
  have hmem : (⟨⟨r, hr⟩, ⟨c, hc⟩⟩ : Fin 9 × Fin 9) ∈
      Finset.univ.filter fun p : Fin 9 × Fin 9 => g p.1 p.2 ≠ 0 := by
    simp [h1]
  have hset : (Finset.univ.filter fun p : Fin 9 × Fin 9 => update g r c 0 p.1 p.2 ≠ 0)
      = (Finset.univ.filter fun p : Fin 9 × Fin 9 => g p.1 p.2 ≠ 0).erase
          ⟨⟨r, hr⟩, ⟨c, hc⟩⟩ := by
    ext p
    simp only [Finset.mem_filter, Finset.mem_erase, Finset.mem_univ, true_and]
    constructor
    · intro hp
      by_cases hpe : (p.1 : ℕ) = r ∧ (p.2 : ℕ) = c
      · exfalso
        simp only [update] at hp
        rw [if_pos hpe] at hp
        exact hp rfl
      · refine ⟨?_, ?_⟩
        · intro he
          apply hpe
          subst he
          exact ⟨rfl, rfl⟩
        · simp only [update] at hp
          rw [if_neg hpe] at hp
          exact hp
    · rintro ⟨hne, hp⟩
      have hpe : ¬((p.1 : ℕ) = r ∧ (p.2 : ℕ) = c) := by
        rintro ⟨h1x, h2x⟩
        exact hne (Prod.ext (Fin.ext h1x) (Fin.ext h2x))
      simp only [update]
      rw [if_neg hpe]
      exact hp
  unfold nonZeroCount
  rw [hset, Finset.card_erase_of_mem hmem]
  have hpos : 0 < (Finset.univ.filter fun p : Fin 9 × Fin 9 => g p.1 p.2 ≠ 0).card :=
    Finset.card_pos.mpr ⟨_, hmem⟩
  omega

lemma nonZeroCount_le (g : Grid) : nonZeroCount g ≤ 81 := by
  unfold nonZeroCount
  calc (Finset.univ.filter fun p : Fin 9 × Fin 9 => g p.1 p.2 ≠ 0).card
      ≤ (Finset.univ : Finset (Fin 9 × Fin 9)).card := Finset.card_filter_le _ _
    _ = 81 := by simp

lemma nonZeroCount_eq_81 {g : Grid}
    (h : ∀ r, r < 9 → ∀ c, c < 9 → g r c ≠ 0) : nonZeroCount g = 81 := by
  unfold nonZeroCount
  have hfe : (Finset.univ.filter fun p : Fin 9 × Fin 9 => g p.1 p.2 ≠ 0)
      = Finset.univ := by
    apply Finset.filter_true_of_mem
    intro p _
    exact h p.1 p.1.isLt p.2 p.2.isLt
  rw [hfe]
  simp

lemma noConflict_update {g : Grid} {r c n : ℕ} (hg : noConflict g)
    (hr : r < 9) (hc : c < 9) (h0 : g r c = 0)
    (hn : isValid g r c n = true) (hn0 : n ≠ 0) :
    noConflict (update g r c n) := by
  have hval := (isValid_eq_true_iff g r c n hr hc).mp hn
  intro a ha b hb a1 ha1 b1 hb1 hne hsg hz
  by_cases hp : a = r ∧ b = c
  · rw [hp.1, hp.2] at hsg hne ⊢
    rw [update_at]
    have hp1 : ¬(a1 = r ∧ b1 = c) := by
      rintro ⟨f1, f2⟩
      rw [f1, f2] at hne
      rcases hne with h | h <;> exact h rfl
    rw [update_ne g r c n hp1]
    intro he
    exact hval a1 ha1 b1 hb1 hsg he.symm
  · rw [update_ne g r c n hp] at hz ⊢
    by_cases hp1 : a1 = r ∧ b1 = c
    · rw [hp1.1, hp1.2] at hsg ⊢
      rw [update_at]
      intro he
      exact hval a ha b hb (sameGroup_symm hsg) he
    · rw [update_ne g r c n hp1]
      exact hg a ha b hb a1 ha1 b1 hb1 hne hsg hz

lemma boundedGrid_update {g : Grid} (hb : boundedGrid g) {r c n : ℕ}
    (hn : n ≤ 9) : boundedGrid (update g r c n) := by
  intro a ha b hbb
  by_cases hp : a = r ∧ b = c
  · obtain ⟨e1, e2⟩ := hp
    subst e1; subst e2
    rw [update_at]
    exact hn
  · rw [update_ne g r c n hp]
    exact hb a ha b hbb

lemma tryNums_sound (solveF : Grid → ℕ → Bool × Grid × ℕ)
    (hRes : ∀ g t, (solveF g t).1 = false → (solveF g t).2.1 = g)
    (hSound : ∀ g t, noConflict g → boundedGrid g → (solveF g t).1 = true →
      noConflict (solveF g t).2.1 ∧ boundedGrid (solveF g t).2.1 ∧
        filledGrid (solveF g t).2.1)
    (r c : ℕ) (hr : r < 9) (hc : c < 9) :
    ∀ (ns : List ℕ) (g : Grid) (t : ℕ),
      (∀ n ∈ ns, 1 ≤ n ∧ n ≤ 9) → noConflict g → boundedGrid g → g r c = 0 →
      (tryNums solveF r c g ns t).1 = true →
      noConflict (tryNums solveF r c g ns t).2.1 ∧
        boundedGrid (tryNums solveF r c g ns t).2.1 ∧
        filledGrid (tryNums solveF r c g ns t).2.1 := by
  intro ns
  induction ns with
  | nil =>
    intro g t _ _ _ _ htrue
    simp only [tryNums] at htrue
    exact Bool.noConfusion htrue
  | cons n ns ih =>
    intro g t hmem hnc hbd h0 htrue
    have hn19 := hmem n (List.mem_cons_self n ns)
    by_cases hv : isValid g r c n = true
    · rcases hs : solveF (update g r c n) t with ⟨b, g1, t1⟩
      cases b
      · have hg1 : g1 = update g r c n := by
          have := hRes (update g r c n) t
          rw [hs] at this
          exact this rfl
        have hback : update g1 r c 0 = g := by
          rw [hg1]
          exact update_cancel h0 n
        simp only [tryNums, hv, if_true, hs] at htrue ⊢
        rw [hback] at htrue ⊢
        exact ih g t1 (fun m hm => hmem m (List.mem_cons_of_mem n hm)) hnc hbd h0 htrue
      · have hnc1 : noConflict (update g r c n) :=
          noConflict_update hnc hr hc h0 hv (by omega)
        have hbd1 : boundedGrid (update g r c n) := boundedGrid_update hbd hn19.2
        have hall := hSound (update g r c n) t hnc1 hbd1 (by rw [hs])
        rw [hs] at hall
        simp only [tryNums, hv, if_true, hs]
        exact hall
    · simp only [tryNums, if_neg hv] at htrue ⊢
      exact ih g t (fun m hm => hmem m (List.mem_cons_of_mem n hm)) hnc hbd h0 htrue

lemma solve_sound (rand : ℕ → ℕ) :
    ∀ (fuel : ℕ) (g : Grid) (t : ℕ), noConflict g → boundedGrid g →
      (solve rand fuel g t).1 = true →
      noConflict (solve rand fuel g t).2.1 ∧
        boundedGrid (solve rand fuel g t).2.1 ∧
        filledGrid (solve rand fuel g t).2.1 := by
  intro fuel
  induction fuel with
  | zero =>
    intro g t _ _ htrue
    simp only [solve] at htrue
    exact Bool.noConfusion htrue
  | succ fuel ih =>
    intro g t hnc hbd htrue
    rcases hfe : firstEmpty g with _ | ⟨r, c⟩
    · simp only [solve, hfe] at htrue ⊢
      exact ⟨hnc, hbd, firstEmpty_none hfe⟩
    · obtain ⟨hr, hc, h0⟩ := firstEmpty_some hfe
      simp only [solve, hfe] at htrue ⊢
      exact tryNums_sound (solve rand fuel) (solve_restore rand fuel) ih r c hr hc
        _ g _ (fun m hm => (mem_shuffle rand t m).mp hm) hnc hbd h0 htrue

end Sudoku

namespace Sudoku

lemma isValid_goodExt {g gs : Grid} {r c : ℕ} (hr : r < 9) (hc : c < 9)
    (h0 : g r c = 0) (hext : goodExt gs g) : isValid g r c (gs r c) = true := by
  obtain ⟨hagree, hbnd, hnc⟩ := hext
  rw [isValid_eq_true_iff g r c _ hr hc]
  intro r1 h1 c1 h2 hsg he
  have hvpos : 1 ≤ gs r c := (hbnd r hr c hc).1
  have hne1 : g r1 c1 ≠ 0 := by rw [he]; omega
  have hgs1 : gs r1 c1 = g r1 c1 := hagree r1 h1 c1 h2 hne1
  have hcells : r1 ≠ r ∨ c1 ≠ c := by
    by_contra hx
    push_neg at hx
    rw [hx.1, hx.2] at he
    rw [h0] at he
    omega
  have hcon := hnc r1 h1 c1 h2 r hr c hc hcells (sameGroup_symm hsg)
    (by rw [hgs1]; exact hne1)
  apply hcon
  rw [hgs1, he]

lemma tryNums_complete (solveF : Grid → ℕ → Bool × Grid × ℕ) (N : ℕ)
    (hRes : ∀ g t, (solveF g t).1 = false → (solveF g t).2.1 = g)
    (hCompl : ∀ g t, emptyCount g < N → (∃ gs, goodExt gs g) →
      (solveF g t).1 = true)
    (r c : ℕ) (hr : r < 9) (hc : c < 9) (gs : Grid) :
    ∀ (ns : List ℕ) (g : Grid) (t : ℕ), g r c = 0 → emptyCount g ≤ N →
      goodExt gs g → gs r c ∈ ns → (tryNums solveF r c g ns t).1 = true := by
  intro ns
  induction ns with
  | nil => intro g t _ _ _ hmem; cases hmem
  | cons n ns ih =>
    intro g t h0 hN hext hmem
    by_cases hv : isValid g r c n = true
    · rcases hs : solveF (update g r c n) t with ⟨b, g1, t1⟩
      cases b
      · have hg1 : g1 = update g r c n := by
          have := hRes (update g r c n) t
          rw [hs] at this
          exact this rfl
        have hnn : n ≠ gs r c := by
          intro hnn
          have hn0 : n ≠ 0 := by
            rw [hnn]
            have := (hext.2.1 r hr c hc).1
            omega
          have hec : emptyCount (update g r c n) < N := by
            have h1 := emptyCount_update hr hc h0 hn0
            have h2 := emptyCount_pos hr hc h0
            omega
          have hgood : goodExt gs (update g r c n) := by
            obtain ⟨hagree, hbnd, hnc⟩ := hext
            refine ⟨?_, hbnd, hnc⟩
            intro a ha bb hbb hz
            by_cases hp : a = r ∧ bb = c
            · rw [hp.1, hp.2, update_at]
              exact hnn.symm
            · rw [update_ne g r c n hp] at hz ⊢
              exact hagree a ha bb hbb hz
          have hres := hCompl (update g r c n) t hec ⟨gs, hgood⟩
          rw [hs] at hres
          exact Bool.noConfusion hres
        have hback : update g1 r c 0 = g := by
          rw [hg1]
          exact update_cancel h0 n
        simp only [tryNums, hv, if_true, hs]
        rw [hback]
        have hmem1 : gs r c ∈ ns := by
          rcases List.mem_cons.mp hmem with h | h
          · exact absurd h.symm hnn
          · exact h
        exact ih g t1 h0 hN hext hmem1
      · simp only [tryNums, hv, if_true, hs]
    · have hnn : n ≠ gs r c := by
        intro hnn
        rw [hnn] at hv
        exact hv (isValid_goodExt hr hc h0 ⟨hext.1, hext.2.1, hext.2.2⟩)
      simp only [tryNums, if_neg hv]
      have hmem1 : gs r c ∈ ns := by
        rcases List.mem_cons.mp hmem with h | h
        · exact absurd h.symm hnn
        · exact h
      exact ih g t h0 hN hext hmem1

lemma solve_complete (rand : ℕ → ℕ) :
    ∀ (fuel : ℕ) (g : Grid) (t : ℕ), emptyCount g < fuel →
      (∃ gs, goodExt gs g) → (solve rand fuel g t).1 = true := by
  intro fuel
  induction fuel with
  | zero => intro g t h _; omega
  | succ fuel ih =>
    intro g t hec hext
    rcases hfe : firstEmpty g with _ | ⟨r, c⟩
    · simp only [solve, hfe]
    · obtain ⟨hr, hc, h0⟩ := firstEmpty_some hfe
      obtain ⟨gs, hgs⟩ := hext
      simp only [solve, hfe]
      apply tryNums_complete (solve rand fuel) fuel (solve_restore rand fuel) ih
        r c hr hc gs _ g _ h0 (by omega) hgs
      rw [mem_shuffle]
      exact ⟨(hgs.2.1 r hr c hc).1, (hgs.2.1 r hr c hc).2⟩

lemma noConflict_zeroGrid : noConflict zeroGrid := by
  intro a _ b _ a1 _ b1 _ _ _ hz
  exact absurd rfl hz

lemma boundedGrid_zeroGrid : boundedGrid zeroGrid := by
  intro a _ b _
  exact Nat.zero_le 9

end Sudoku

namespace Sudoku

lemma perm_digits {L : List ℕ} (hlen : L.length = 9) (hnd : L.Nodup)
    (hb : ∀ a ∈ L, 1 ≤ a ∧ a ≤ 9) : L.Perm [1, 2, 3, 4, 5, 6, 7, 8, 9] := by
  apply List.perm_of_nodup_nodup_toFinset_eq hnd (by decide)
  apply Finset.eq_of_subset_of_card_le
  · intro x hx
    rw [List.mem_toFinset] at hx
    have hxb := hb x hx
    rw [List.mem_toFinset]
    simp only [List.mem_cons, List.not_mem_nil, or_false]
    omega
  · have h1 : L.toFinset.card = 9 := by
      rw [List.toFinset_card_of_nodup hnd, hlen]
    rw [h1]
    decide

lemma rowList_perm {g : Grid} (hf : filledGrid g) (hnc : noConflict g)
    (hb : boundedGrid g) {r : ℕ} (hr : r < 9) :
    (rowList g r).Perm [1, 2, 3, 4, 5, 6, 7, 8, 9] := by
  apply perm_digits
  · simp [rowList]
  · apply List.Nodup.map_on ?_ (List.nodup_range 9)
    intro x hx y hy hxy
    rw [List.mem_range] at hx hy
    by_contra hne
    exact hnc r hr x hx r hr y hy (Or.inr hne) (Or.inl rfl) (hf r hr x hx) hxy
  · intro a ha
    simp only [rowList, List.mem_map, List.mem_range] at ha
    obtain ⟨x, hx, he⟩ := ha
    have h1 := hf r hr x hx
    have h2 := hb r hr x hx
    omega

lemma colList_perm {g : Grid} (hf : filledGrid g) (hnc : noConflict g)
    (hb : boundedGrid g) {c : ℕ} (hc : c < 9) :
    (colList g c).Perm [1, 2, 3, 4, 5, 6, 7, 8, 9] := by
  apply perm_digits
  · simp [colList]
  · apply List.Nodup.map_on ?_ (List.nodup_range 9)
    intro x hx y hy hxy
    rw [List.mem_range] at hx hy
    by_contra hne
    exact hnc x hx c hc y hy c hc (Or.inl hne) (Or.inr (Or.inl rfl))
      (hf x hx c hc) hxy
  · intro a ha
    simp only [colList, List.mem_map, List.mem_range] at ha
    obtain ⟨x, hx, he⟩ := ha
    have h1 := hf x hx c hc
    have h2 := hb x hx c hc
    omega

lemma boxList_perm {g : Grid} (hf : filledGrid g) (hnc : noConflict g)
    (hb : boundedGrid g) {b : ℕ} (hbb : b < 9) :
    (boxList g b).Perm [1, 2, 3, 4, 5, 6, 7, 8, 9] := by
  apply perm_digits
  · simp [boxList]
  · apply List.Nodup.map_on ?_ (List.nodup_range 9)
    intro x hx y hy hxy
    rw [List.mem_range] at hx hy
    by_contra hne
    exact hnc (b / 3 * 3 + x / 3) (by omega) (b % 3 * 3 + x % 3) (by omega)
      (b / 3 * 3 + y / 3) (by omega) (b % 3 * 3 + y % 3) (by omega)
      (by omega) (Or.inr (Or.inr ⟨by omega, by omega⟩))
      (hf _ (by omega) _ (by omega)) hxy
  · intro a ha
    simp only [boxList, List.mem_map, List.mem_range] at ha
    obtain ⟨x, hx, he⟩ := ha
    have h1 := hf (b / 3 * 3 + x / 3) (by omega) (b % 3 * 3 + x % 3) (by omega)
    have h2 := hb (b / 3 * 3 + x / 3) (by omega) (b % 3 * 3 + x % 3) (by omega)
    omega

lemma goodExt_solGrid : goodExt solGrid zeroGrid := by decide

lemma emptyCount_zeroGrid : emptyCount zeroGrid = 81 := by decide

lemma generateValidSudoku_props (rand : ℕ → ℕ) :
    noConflict (generateValidSudoku rand) ∧
      boundedGrid (generateValidSudoku rand) ∧
      filledGrid (generateValidSudoku rand) := by
  have h81 := emptyCount_zeroGrid
  have htrue := solve_complete rand 82 zeroGrid 0 (by omega) ⟨solGrid, goodExt_solGrid⟩
  unfold generateValidSudoku
  exact solve_sound rand 82 zeroGrid 0 noConflict_zeroGrid boundedGrid_zeroGrid htrue

/-- C2: every grid returned by `generateValidSudoku` (for any random
oracle) is fully populated with values in 1..9, and each row, column
and 3×3 box is a permutation of 1..9. -/
theorem generateValidSudoku_valid (rand : ℕ → ℕ) (i j : Fin 9) :
    (1 ≤ generateValidSudoku rand i j ∧ generateValidSudoku rand i j ≤ 9) ∧
    (rowList (generateValidSudoku rand) i).Perm [1, 2, 3, 4, 5, 6, 7, 8, 9] ∧
    (colList (generateValidSudoku rand) i).Perm [1, 2, 3, 4, 5, 6, 7, 8, 9] ∧
    (boxList (generateValidSudoku rand) i).Perm [1, 2, 3, 4, 5, 6, 7, 8, 9] := by
  obtain ⟨hnc, hbd, hf⟩ := generateValidSudoku_props rand
  refine ⟨⟨?_, hbd i i.isLt j j.isLt⟩, rowList_perm hf hnc hbd i.isLt,
    colList_perm hf hnc hbd i.isLt, boxList_perm hf hnc hbd i.isLt⟩
  have hz := hf i i.isLt j j.isLt
  omega

/-- C6: on the all-zero grid the backtracking solver always succeeds —
for every random oracle and every fuel at least 82 (the source
recursion depth is at most 82) it returns `true` with the board fully
populated and conflict-free; it never reports failure at top level. -/
theorem solve_empty_grid_succeeds (rand : ℕ → ℕ) (fuel : ℕ) (hf : 82 ≤ fuel) :
    (solve rand fuel zeroGrid 0).1 = true ∧
    filledGrid (solve rand fuel zeroGrid 0).2.1 ∧
    noConflict (solve rand fuel zeroGrid 0).2.1 := by
  have h81 := emptyCount_zeroGrid
  have htrue := solve_complete rand fuel zeroGrid 0 (by omega)
    ⟨solGrid, goodExt_solGrid⟩
  have hs := solve_sound rand fuel zeroGrid 0 noConflict_zeroGrid
    boundedGrid_zeroGrid htrue
  exact ⟨htrue, hs.2.2, hs.1⟩

/-- Witness for C6 at the constant-zero oracle and fuel 82. -/
theorem solve_empty_grid_succeeds_witness :
    (82 : ℕ) ≤ 82 ∧
    ((solve (fun _ => 0) 82 zeroGrid 0).1 = true ∧
     filledGrid (solve (fun _ => 0) 82 zeroGrid 0).2.1 ∧
     noConflict (solve (fun _ => 0) 82 zeroGrid 0).2.1) :=
  ⟨by decide, solve_empty_grid_succeeds (fun _ => 0) 82 (by decide)⟩

end Sudoku

namespace Sudoku

/-- C7: whenever `solve` returns `false` (a boolean result — the
embedding is a total function, so no exception is possible), the board
is exactly as it was at entry: every placement attempted during the
failed search was undone by resetting the cell to 0. -/
theorem solve_failure_restores (rand : ℕ → ℕ) (fuel : ℕ) (g : Grid) (t : ℕ)
    (h : (solve rand fuel g t).1 = false) : (solve rand fuel g t).2.1 = g :=
  solve_restore rand fuel g t h

/-- Witness for C7: an unsatisfiable partial grid on which the solver
fails and hands back the entry board unchanged. -/
theorem solve_failure_restores_witness :
    (solve (fun _ => 0) 82 gBad 0).1 = false ∧
    (solve (fun _ => 0) 82 gBad 0).2.1 = gBad :=
  ⟨by decide, solve_failure_restores (fun _ => 0) 82 gBad 0 (by decide)⟩

/-- C1 counterexample: on a grid whose only 5 sits at the target cell
`(0,0)` itself, `isValid` returns false although 5 does not occur
elsewhere in row 0, column 0 or the top-left box — the row/column/box
scans of the code do not exclude the target cell. -/
theorem isValid_counterexample :
    isValid gSelf 0 0 5 = false ∧ ¬ occursElsewhere gSelf 0 0 5 :=
  ⟨by decide, by decide⟩

/-- C1 (amended): for every grid and in-range `(r, c)`, `isValid`
returns false iff the value occurs anywhere — the target cell included
— in row `r`, column `c` or the box of `(r, c)`; when the target cell
is empty and the value non-zero (the case in every internal call) this
coincides with the value occurring elsewhere. -/
theorem isValid_characterization (g : Grid) (r c v : ℕ)
    (hr : r < 9) (hc : c < 9) :
    (isValid g r c v = false ↔ occursAnywhere g r c v) ∧
    (g r c = 0 → v ≠ 0 →
      (isValid g r c v = false ↔ occursElsewhere g r c v)) := by
  refine ⟨isValid_eq_false_iff g r c v hr hc, fun h0 hv => ?_⟩
  rw [isValid_eq_false_iff g r c v hr hc]
  exact occursAnywhere_iff_elsewhere h0 hv

/-- Witness for C1 at the spec's example grid (row 0 is
`[5,3,0,0,7,0,0,0,0]`), including the two quoted checks at `(0,2)`:
value 5 is rejected, value 9 is accepted. -/
theorem isValid_characterization_witness :
    (0 : ℕ) < 9 ∧ (2 : ℕ) < 9 ∧
    ((isValid gExample 0 2 5 = false ↔ occursAnywhere gExample 0 2 5) ∧
     (gExample 0 2 = 0 → (5 : ℕ) ≠ 0 →
       (isValid gExample 0 2 5 = false ↔ occursElsewhere gExample 0 2 5))) ∧
    isValid gExample 0 2 5 = false ∧ isValid gExample 0 2 9 = true :=
  ⟨by decide, by decide,
    isValid_characterization gExample 0 2 5 (by decide) (by decide),
    by decide, by decide⟩

lemma removeLoop_count (stream : ℕ → ℕ) (target : ℤ) :
    ∀ (fuel : ℕ) (g : Grid) (removed t : ℕ) (p : Grid),
      (removed : ℤ) ≤ target →
      removeLoop stream target fuel g removed t = some p →
      (nonZeroCount p : ℤ) = nonZeroCount g - (target - removed) := by
  intro fuel
  induction fuel with
  | zero =>
    intro g removed t p hle hsome
    simp only [removeLoop] at hsome
    by_cases hlt : (removed : ℤ) < target
    · rw [if_pos hlt] at hsome
      cases hsome
    · rw [if_neg hlt] at hsome
      cases hsome
      have heq : (removed : ℤ) = target := by omega
      rw [heq]
      ring
  | succ fuel ih =>
    intro g removed t p hle hsome
    simp only [removeLoop] at hsome
    by_cases hlt : (removed : ℤ) < target
    · rw [if_pos hlt] at hsome
      by_cases hnz : g (stream t % 9) (stream (t + 1) % 9) ≠ 0
      · rw [if_pos hnz] at hsome
        have hcnt := nonZeroCount_update (Nat.mod_lt _ (by omega))
          (Nat.mod_lt _ (by omega)) hnz
        have hres := ih _ (removed + 1) (t + 2) p (by omega) hsome
        omega
      · rw [if_neg hnz] at hsome
        exact ih _ removed (t + 2) p hle hsome
    · rw [if_neg hlt] at hsome
      cases hsome
      have heq : (removed : ℤ) = target := by omega
      rw [heq]
      ring

lemma removeLoop_subset (stream : ℕ → ℕ) (target : ℤ) (sol : Grid) :
    ∀ (fuel : ℕ) (g : Grid) (removed t : ℕ),
      (∀ r c, g r c = 0 ∨ g r c = sol r c) →
      ∀ r c, ((removeLoop stream target fuel g removed t).getD sol) r c = 0 ∨
        ((removeLoop stream target fuel g removed t).getD sol) r c = sol r c := by
  intro fuel
  induction fuel with
  | zero =>
    intro g removed t hinv r c
    simp only [removeLoop]
    by_cases hlt : (removed : ℤ) < target
    · rw [if_pos hlt]
      right
      rfl
    · rw [if_neg hlt]
      exact hinv r c
  | succ fuel ih =>
    intro g removed t hinv r c
    simp only [removeLoop]
    by_cases hlt : (removed : ℤ) < target
    · rw [if_pos hlt]
      by_cases hnz : g (stream t % 9) (stream (t + 1) % 9) ≠ 0
      · rw [if_pos hnz]
        apply ih
        intro a b
        by_cases hp : a = stream t % 9 ∧ b = stream (t + 1) % 9
        · left
          rw [hp.1, hp.2, update_at]
        · rw [update_ne _ _ _ _ hp]
          exact hinv a b
      · rw [if_neg hnz]
        exact ih g removed (t + 2) hinv r c
    · rw [if_neg hlt]
      exact hinv r c

/-- C4: every cell of a derived puzzle is either 0 or agrees with the
solution at that position — for any random stream, any clue count and
any fuel (a run that does not finish defaults to the solution). -/
theorem derivePuzzle_subset (stream : ℕ → ℕ) (sol : Grid) (C : ℤ)
    (fuel t : ℕ) (r c : ℕ) :
    ((derivePuzzle stream sol C fuel t).getD sol) r c = 0 ∨
    ((derivePuzzle stream sol C fuel t).getD sol) r c = sol r c := by
  unfold derivePuzzle
  exact removeLoop_subset stream (81 - C) sol fuel sol 0 t
    (fun a b => Or.inr rfl) r c

lemma removeLoop_sweep (sol : Grid)
    (hsol : ∀ r, r < 9 → ∀ c, c < 9 → sol r c ≠ 0) (R : ℕ) (hR : R ≤ 81) :
    ∀ (n i : ℕ) (g : Grid), R ≤ i + n → i ≤ R →
      (∀ k, i ≤ k → k < 81 → g (k / 9) (k % 9) ≠ 0) →
      (removeLoop sweepStream (R : ℤ) n g i (2 * i)).isSome = true := by
  intro n
  induction n with
  | zero =>
    intro i g hni hiR _hinv
    simp only [removeLoop]
    rw [if_neg (by omega)]
    rfl
  | succ n ih =>
    intro i g hni hiR hinv
    by_cases hiR2 : i < R
    · simp only [removeLoop]
      rw [if_pos (by omega)]
      have hrow : sweepStream (2 * i) % 9 = i / 9 := by
        unfold sweepStream
        rw [if_pos (by omega)]
        omega
      have hcol : sweepStream (2 * i + 1) % 9 = i % 9 := by
        unfold sweepStream
        rw [if_neg (by omega)]
        omega
      rw [hrow, hcol]
      rw [if_pos (hinv i le_rfl (by omega))]
      have h2i : 2 * i + 2 = 2 * (i + 1) := by ring
      rw [h2i]
      apply ih (i + 1) _ (by omega) (by omega)
      intro k hk hk81
      have hne : ¬(k / 9 = i / 9 ∧ k % 9 = i % 9) := by
        intro hkk
        have hki : k = i := by omega
        omega
      rw [update_ne _ _ _ _ hne]
      exact hinv k (by omega) hk81
    · simp only [removeLoop]
      rw [if_neg (by omega)]
      rfl

/-- C3: for every complete solution and clue count `C` in [0,81], every
run of the removal loop that terminates yields a puzzle with exactly
`C` non-zero cells, and the loop does terminate (within 81 picks) for
any stream that sweeps the 81 cells — expressing the almost-sure
termination of the rejection-sampling loop. -/
theorem derivePuzzle_clue_count (sol : Grid) (C : ℤ) (hC0 : 0 ≤ C)
    (hC1 : C ≤ 81) (hsol : ∀ r, r < 9 → ∀ c, c < 9 → sol r c ≠ 0) :
    (∀ stream fuel t p, derivePuzzle stream sol C fuel t = some p →
      (nonZeroCount p : ℤ) = C) ∧
    (derivePuzzle sweepStream sol C 81 0).isSome = true := by
  constructor
  · intro stream fuel t p hp
    have h81 := nonZeroCount_eq_81 hsol
    have hcnt := removeLoop_count stream (81 - C) fuel sol 0 t p (by omega) hp
    omega
  · unfold derivePuzzle
    obtain ⟨R, hR⟩ : ∃ R : ℕ, (R : ℤ) = 81 - C := ⟨(81 - C).toNat, by omega⟩
    rw [← hR]
    have hres := removeLoop_sweep sol hsol R (by omega) 81 0 sol (by omega)
      (by omega) (fun k _ hk81 => hsol (k / 9) (by omega) (k % 9) (by omega))
    simpa using hres

/-- Witness for C3 at the concrete complete grid and clue count 30. -/
theorem derivePuzzle_clue_count_witness :
    ((0 : ℤ) ≤ 30 ∧ (30 : ℤ) ≤ 81 ∧
      (∀ r, r < 9 → ∀ c, c < 9 → solGrid r c ≠ 0)) ∧
    ((∀ stream fuel t p, derivePuzzle stream solGrid 30 fuel t = some p →
        (nonZeroCount p : ℤ) = 30) ∧
      (derivePuzzle sweepStream solGrid 30 81 0).isSome = true) :=
  ⟨⟨by decide, by decide, by decide⟩,
    derivePuzzle_clue_count solGrid 30 (by decide) (by decide) (by decide)⟩

lemma removeLoop_neg (stream : ℕ → ℕ) (target : ℤ) (htar : 81 < target) :
    ∀ (fuel : ℕ) (g : Grid) (removed t : ℕ),
      (removed : ℤ) + nonZeroCount g ≤ 81 →
      removeLoop stream target fuel g removed t = none := by
  intro fuel
  induction fuel with
  | zero =>
    intro g removed t hinv
    simp only [removeLoop]
    rw [if_pos (by omega)]
  | succ fuel ih =>
    intro g removed t hinv
    simp only [removeLoop]
    rw [if_pos (by omega)]
    by_cases hnz : g (stream t % 9) (stream (t + 1) % 9) ≠ 0
    · rw [if_pos hnz]
      apply ih
      have hcnt := nonZeroCount_update (Nat.mod_lt _ (by omega))
        (Nat.mod_lt _ (by omega)) hnz
      omega
    · rw [if_neg hnz]
      exact ih g removed (t + 2) hinv

set_option maxRecDepth 4000 in
/-- C5 counterexample: the deriver performs no clue-count validation.
With the out-of-range clue count 82 it runs the loop test and returns
the unmodified solution (no rejection, no error); with the
out-of-range clue count -1 it is still resampling when a fuel of 200
loop iterations runs out. -/
theorem derivePuzzle_no_validation_counterexample :
    derivePuzzle sweepStream solGrid 82 81 0 = some solGrid ∧
    derivePuzzle sweepStream solGrid (-1) 200 0 = none :=
  ⟨by rfl, by rfl⟩

/-- C5 (amended): the deriver has no precondition check on the clue
count.  A clue count above 81 makes the removal loop exit immediately
(the "puzzle" is the entire solution, for every stream and fuel); a
negative clue count asks for more than 81 removals, so the loop can
never reach its target and never terminates, whatever the fuel. -/
theorem derivePuzzle_out_of_range (C : ℤ) :
    (81 < C → ∀ stream sol fuel t,
      derivePuzzle stream sol C fuel t = some sol) ∧
    (C < 0 → ∀ stream sol fuel t,
      derivePuzzle stream sol C fuel t = none) := by
  constructor
  · intro hC stream sol fuel t
    unfold derivePuzzle
    cases fuel with
    | zero =>
      simp only [removeLoop]
      rw [if_neg (by omega)]
    | succ fuel =>
      simp only [removeLoop]
      rw [if_neg (by omega)]
  · intro hC stream sol fuel t
    unfold derivePuzzle
    apply removeLoop_neg stream (81 - C) (by omega) fuel sol 0 t
    have hle := nonZeroCount_le sol
    omega

/-- Witness for C5's amended claim at clue counts 82 and -1. -/
theorem derivePuzzle_out_of_range_witness :
    ((81 : ℤ) < 82 ∧ derivePuzzle sweepStream solGrid 82 81 0 = some solGrid) ∧
    ((-1 : ℤ) < 0 ∧ derivePuzzle sweepStream solGrid (-1) 5 0 = none) :=
  ⟨⟨by decide, (derivePuzzle_out_of_range 82).1 (by decide) sweepStream solGrid 81 0⟩,
   ⟨by decide, (derivePuzzle_out_of_range (-1)).2 (by decide) sweepStream solGrid 5 0⟩⟩

end Sudoku

namespace Sudoku

/-- C8: the move validator classifies a value as Correct exactly when
it equals the solution's value at that cell; `enterNumber` counts a
mistake exactly on incorrect values and never mutates the solution
grid; and `isPuzzleComplete` returns true iff all 81 cells pass the
validator against the solution. -/
theorem moveValidator_and_completion :
    (∀ sol r c v, moveIsCorrect sol r c v = true ↔ v = sol r c) ∧
    (∀ s r c v, (enterNumber s r c v).solution = s.solution ∧
      (enterNumber s r c v).mistakes =
        (if moveIsCorrect s.solution r c v = true then s.mistakes
         else s.mistakes + 1)) ∧
    (∀ board sol, isPuzzleComplete board sol = true ↔
      ∀ r, r < 9 → ∀ c, c < 9 → moveIsCorrect sol r c (board r c) = true) := by
  refine ⟨?_, ?_, ?_⟩
  · intro sol r c v
    unfold moveIsCorrect
    exact beq_iff_eq
  · intro s r c v
    by_cases h : v = s.solution r c <;>
      simp [enterNumber, moveIsCorrect, h]
  · intro board sol
    unfold isPuzzleComplete moveIsCorrect
    simp only [List.all_eq_true, List.mem_range, beq_iff_eq]

/-- Witness for C8 at concrete grids: one single-cell validation and
the completion check of a solved board. -/
theorem moveValidator_and_completion_witness :
    (moveIsCorrect solGrid 0 0 1 = true ↔ (1 : ℕ) = solGrid 0 0) ∧
    (isPuzzleComplete solGrid solGrid = true ↔
      ∀ r, r < 9 → ∀ c, c < 9 →
        moveIsCorrect solGrid r c (solGrid r c) = true) :=
  ⟨moveValidator_and_completion.1 solGrid 0 0 1,
   moveValidator_and_completion.2.2 solGrid solGrid⟩

lemma applyMove_frame (s : GameState) (m : Move) :
    (applyMove s m).originalBoard = s.originalBoard ∧
    (applyMove s m).solution = s.solution := by
  cases m with
  | enter r c v =>
    simp only [applyMove]
    unfold enterNumber
    by_cases h : v ≠ s.solution r c
    · rw [if_pos h]
      exact ⟨rfl, rfl⟩
    · rw [if_neg h]
      exact ⟨rfl, rfl⟩
  | erase r c =>
    simp only [applyMove]
    unfold eraseCell
    by_cases h : s.solution r c ≠ s.board r c
    · rw [if_pos h]
      exact ⟨rfl, rfl⟩
    · rw [if_neg h]
      exact ⟨rfl, rfl⟩
  | hint r c =>
    simp only [applyMove]
    unfold giveHint
    by_cases h : s.board r c = 0
    · rw [if_pos h]
      exact ⟨rfl, rfl⟩
    · rw [if_neg h]
      exact ⟨rfl, rfl⟩
  | reset => exact ⟨rfl, rfl⟩

lemma applyMoves_frame :
    ∀ (ms : List Move) (s : GameState),
      (applyMoves s ms).originalBoard = s.originalBoard ∧
      (applyMoves s ms).solution = s.solution := by
  intro ms
  induction ms with
  | nil => intro s; exact ⟨rfl, rfl⟩
  | cons m ms ih =>
    intro s
    have h1 := applyMove_frame s m
    have h2 := ih (applyMove s m)
    exact ⟨h2.1.trans h1.1, h2.2.trans h1.2⟩

/-- C9: no player action (digit entry, erase, hint, reset) ever
mutates the original-puzzle snapshot or the solution; resetting after
an arbitrary action sequence restores the board to exactly the
snapshot; and the snapshot of `generatePuzzle` equals the derived
board at creation time. -/
theorem resetProgress_round_trip (s : GameState) (ms : List Move) :
    (applyMoves s ms).originalBoard = s.originalBoard ∧
    (applyMoves s ms).solution = s.solution ∧
    (applyMove (applyMoves s ms) Move.reset).board = s.originalBoard ∧
    ∀ sol puzzle, (mkGameState sol puzzle).originalBoard =
      (mkGameState sol puzzle).board := by
  obtain ⟨h1, h2⟩ := applyMoves_frame ms s
  refine ⟨h1, h2, ?_, fun sol puzzle => rfl⟩
  show (resetProgress (applyMoves s ms)).board = s.originalBoard
  unfold resetProgress
  exact h1

/-- C10: when the board value at a cell equals the solution value
there, `eraseCell` leaves the whole state unchanged — the code decides
"given clue" by comparing the board to the solution rather than to the
original-puzzle snapshot, so a correctly entered player digit becomes
indistinguishable from a given and cannot be erased. -/
theorem eraseCell_frozen_correct_entry (s : GameState) (r c : ℕ)
    (hnz : s.board r c ≠ 0) (heq : s.board r c = s.solution r c) :
    applyMove s (Move.erase r c) = s := by
  show eraseCell s r c = s
  unfold eraseCell
  rw [if_neg (fun h => h heq.symm)]

/-- Witness for C10: a state whose cell `(0,0)` was empty in the
original puzzle (a player entry, not a given) but now holds the
correct digit 5; erasing it does nothing. -/
theorem eraseCell_frozen_correct_entry_witness :
    sEntered.board 0 0 ≠ 0 ∧ sEntered.board 0 0 = sEntered.solution 0 0 ∧
    sEntered.originalBoard 0 0 = 0 ∧
    applyMove sEntered (Move.erase 0 0) = sEntered :=
  ⟨by decide, by decide, rfl,
    eraseCell_frozen_correct_entry sEntered 0 0 (by decide) (by decide)⟩

end Sudoku
